import Mathlib

/-!
Verification development for `lazyllm/tools/rag/dataReader.py`
(`SimpleDirectoryReader`): file discovery (`_add_files`), extractor
dispatch and metadata merge (`load_file`), and the sequential/parallel
loader (`_load_data`).

The Python code is shallowly embedded: dictionaries become ordered
association lists (Python dicts preserve insertion order, and
`d.update(e)` rewrites values in place for existing keys and appends new
keys at the end), per-file loading that can raise becomes `Except`,
byte contents become `List Nat`, and the filesystem as well as the text
decoder are passed in as explicit functions.
-/

namespace DataReader

/-- Scalar metadata values (numbers and strings suffice for the
attributes this reader produces). -/
inductive Value where
  | int (n : Int)
  | str (s : String)
  deriving DecidableEq, Repr

/-- A Python dict from string keys to scalar values, as an ordered
association list. -/
abbrev Dict := List (String × Value)

/-- Embeds `d[k] = v` on an ordered dict: rewrite the value in place if the key
is present, append `(k, v)` otherwise. -/
def dictSetItem {α : Type} (d : List (String × α)) (k : String) (v : α) :
    List (String × α) :=
  if d.any (fun e => e.1 = k) then
    d.map (fun e => if e.1 = k then (k, v) else e)
  else
    d ++ [(k, v)]

/-- Embeds `d.update e`: apply `dictSetItem` for each entry of `e` in order. -/
def dictUpdate {α : Type} (d e : List (String × α)) : List (String × α) :=
  e.foldl (fun acc kv => dictSetItem acc kv.1 kv.2) d

/-- Key membership in an ordered dict. -/
def dictHasKey {α : Type} (d : List (String × α)) (k : String) : Bool :=
  d.any (fun e => e.1 = k)

/-- A document node as produced and enriched by the reader pipeline:
text payload, `_global_metadata`, `_uid`, and the two metadata-exclusion
key lists. -/
structure DocNode where
  text : String
  globalMetadata : Dict
  uid : String
  excludedEmbedKeys : List String
  excludedLLMKeys : List String
  deriving DecidableEq, Repr

/-- What a reader call returns: a bare `DocNode` or a list of them
(`load_file` normalizes a bare node into a one-element list). -/
inductive ReaderOut where
  | one (d : DocNode)
  | many (ds : List DocNode)
  deriving Repr

/-- A reader capability: invoked on the candidate path, may raise. -/
structure Reader where
  run : String → Except String ReaderOut

/-- Embeds `str.lower()`, computed on the character list (ASCII-compatible,
which covers the patterns and paths in play). -/
def strToLower (s : String) : String :=
  ⟨s.data.map Char.toLower⟩

/-- Embeds `str.startswith(pre)`, computed on the character lists. -/
def strStartsWith (s pre : String) : Bool :=
  pre.data.isPrefixOf s.data

/-- Glob matching as done by `fnmatch.fnmatch` on POSIX, restricted to
the pattern alphabet the reader uses: `*` matches any sequence of
characters (including separators), `?` matches one character, every
other character matches itself. Recursion is structural on an explicit
fuel so that matching computes by kernel reduction; every recursive
call shrinks the combined input length, so `|pattern| + |name| + 1`
fuel always suffices. -/
def globMatchF : Nat → List Char → List Char → Bool
  | 0, _, _ => false
  | _ + 1, [], [] => true
  | _ + 1, [], _ :: _ => false
  | fuel + 1, '*' :: ps, [] => globMatchF fuel ps []
  | fuel + 1, '*' :: ps, c :: cs =>
      globMatchF fuel ps (c :: cs) || globMatchF fuel ('*' :: ps) cs
  | _ + 1, '?' :: _, [] => false
  | fuel + 1, '?' :: ps, _ :: cs => globMatchF fuel ps cs
  | fuel + 1, p :: ps, c :: cs => p = c && globMatchF fuel ps cs
  | _ + 1, _ :: _, [] => false

/-- Entry point of the glob matcher with sufficient fuel. -/
def globMatch (ps cs : List Char) : Bool :=
  globMatchF (ps.length + cs.length + 1) ps cs

/-- Embeds `os.path.join(base, p)` on POSIX: an absolute right operand replaces
the base. -/
def osPathJoin (base p : String) : String :=
  if strStartsWith p "/" then p else base ++ "/" ++ p

/-- The match target built by `load_file` for one registry pattern:
lowercase the pattern (`str(Path(pattern))` is the identity on the glob
patterns in use, which have no redundant separators); a pattern
starting with `*` is used as-is, any other pattern is joined onto the
lowercased working directory. -/
def matchTarget (cwd pattern : String) : String :=
  let ptLower := strToLower pattern
  if strStartsWith ptLower "*" then ptLower
  else osPathJoin (strToLower cwd) ptLower

/-- Does registry pattern `pattern` match the (already lowercased)
candidate filename? -/
def patternMatches (cwd pattern filenameLower : String) : Bool :=
  globMatch (matchTarget cwd pattern).toList filenameLower.toList

/-- First-match lookup over the extractor registry in insertion order,
as performed by the dispatch loop of `load_file` (the `break` on the
first `fnmatch` hit). Polymorphic in the reader payload so that the
same lookup is stated for abstract reader identifiers. -/
def findExtractor {α : Type} (cwd : String) (reg : List (String × α))
    (filenameLower : String) : Option (String × α) :=
  reg.find? (fun e => patternMatches cwd e.1 filenameLower)

/-- Byte contents of a file, as handed to `decode`. -/
abbrev ByteStr := List Nat

/-- The ambient environment of `load_file`: working directory (used to
resolve non-wildcard patterns), the two config flags, the metadata
generator, the encoding, and the filesystem `open`/`decode`
capabilities. `fsOpen` raising propagates; `decode` failure is caught. -/
structure LoadEnv where
  cwd : String
  ragFilenameAsId : Bool
  useFallbackReader : Bool
  genf : Option (String → Dict)
  encoding : String
  fsOpen : String → Except String ByteStr
  decode : String → ByteStr → Option String

/-- Normalization of a reader result into a list (`isinstance(docs, DocNode)`). -/
def ReaderOut.toList : ReaderOut → List DocNode
  | .one d => [d]
  | .many ds => ds

/-- Embeds `metadata_genf(str(input_file)) if metadata_genf else {}`. -/
def generatedMetadata (env : LoadEnv) (inputFile : String) : Dict :=
  match env.genf with
  | some g => g inputFile
  | none => []

/-- The three-tier metadata merge of `load_file`:
`metadata = metadata_generated.copy(); metadata.update(doc._global_metadata or {});
metadata.update(user_metadata)` — caller wins over reader, reader wins
over generated. -/
def mergeTiers (gen readerMeta user : Dict) : Dict :=
  dictUpdate (dictUpdate gen readerMeta) user

/-- Embeds `SimpleDirectoryReader.load_file`: compute generated metadata,
dispatch first-match over the registry; on a match run the reader (its
exceptions propagate), merge metadata tiers generated < reader-attached
< caller-supplied into each node, and optionally overwrite uids; with no
match, either warn-and-return-empty (fallback disabled) or open the file
(open exceptions propagate) and decode it (decode failure caught,
yielding no node). -/
def loadFile (env : LoadEnv) (fileExtractor : List (String × Reader))
    (inputFile : String) (metadata : Option Dict) :
    Except String (List DocNode) :=
  let userMetadata : Dict := metadata.getD []
  let metadataGenerated : Dict := generatedMetadata env inputFile
  let filenameLower := strToLower inputFile
  match findExtractor env.cwd fileExtractor filenameLower with
  | some (_, reader) =>
    match reader.run inputFile with
    | .error e => .error e
    | .ok out =>
      let docs := out.toList
      let docs := docs.map (fun d =>
        { d with globalMetadata := mergeTiers metadataGenerated d.globalMetadata userMetadata })
      let docs :=
        if env.ragFilenameAsId then
          (List.range docs.length).zip docs |>.map
            (fun p => { p.2 with uid := inputFile ++ "_index_" ++ toString p.1 })
        else docs
      .ok docs
  | none =>
    if !env.useFallbackReader then
      .ok []
    else
      match env.fsOpen inputFile with
      | .error e => .error e
      | .ok bs =>
        match env.decode env.encoding bs with
        | some data =>
          .ok [{ text := data, globalMetadata := userMetadata, uid := "",
                 excludedEmbedKeys := [], excludedLLMKeys := [] }]
        | none => .ok []

/-!
## `_load_data`: registry merge, sequential loop and worker-pool fan-out
-/

/-- The merged registry built by `_load_data`: a copy of the
caller-supplied `file_extractor`, then each default entry inserted only
when its key is not already present (Python dict insertion appends new
keys at the end, so caller entries keep their leading positions). -/
def mergeRegistries {α : Type} (caller defaults : List (String × α)) :
    List (String × α) :=
  defaults.foldl
    (fun fr kv => if dictHasKey fr kv.1 then fr else fr ++ [(kv.1, kv.2)])
    caller

/-- Embeds `zip(process_file, self._metadatas or repeat(None))`: a `None` or
empty metadata sequence pairs every file with no override; a nonempty
sequence is zipped positionally and `zip` truncates at the shorter
side. -/
def zipMeta (files : List String) (metadatas : Option (List Dict)) :
    List (String × Option Dict) :=
  match metadatas with
  | none => files.map (fun f => (f, none))
  | some [] => files.map (fun f => (f, none))
  | some ms => files.zip (ms.map some)

/-- The six file-derived metadata keys appended by `_exclude_metadata`. -/
def fileMetadataKeys : List String :=
  ["file_name", "file_type", "file_size", "creation_date",
   "last_modified_date", "last_accessed_date"]

/-- Embeds `_exclude_metadata`: extend both exclusion lists of every node with
the file-derived metadata keys. -/
def excludeMetadata (documents : List DocNode) : List DocNode :=
  documents.map (fun doc =>
    { doc with
        excludedEmbedKeys := doc.excludedEmbedKeys ++ fileMetadataKeys,
        excludedLLMKeys := doc.excludedLLMKeys ++ fileMetadataKeys })

/-- The sequential branch of `_load_data`: `documents.extend(load_file(...))`
for each zipped (file, metadata) pair; an exception from `load_file`
propagates out of the loop. -/
def seqCore (env : LoadEnv) (reg : List (String × Reader)) :
    List (String × Option Dict) → Except String (List DocNode)
  | [] => .ok []
  | (f, m) :: rest =>
    match loadFile env reg f m with
    | .error e => .error e
    | .ok ds =>
      match seqCore env reg rest with
      | .error e => .error e
      | .ok rs => .ok (ds ++ rs)

/-- Embeds `reduce(lambda x, y: x + y, results)`: flattening the per-file
result lists with binary `+`, which raises `TypeError` on an empty
sequence because no initial value is supplied. -/
def reduceConcat (results : List (List DocNode)) :
    Except String (List DocNode) :=
  match results with
  | [] => .error "TypeError: reduce() of empty iterable with no initial value"
  | r :: rs => .ok (rs.foldl (fun x y => x ++ y) r)

/-- Fallible map: apply `f` to every element in order, propagating the
first raised exception. -/
def exceptMap {α β ε : Type} (f : α → Except ε β) : List α → Except ε (List β)
  | [] => .ok []
  | a :: as =>
    match f a with
    | .error e => .error e
    | .ok b =>
      match exceptMap f as with
      | .error e => .error e
      | .ok bs => .ok (b :: bs)

/-- The worker-pool branch of `_load_data`, with the work distribution
made explicit: the argument list is split into consecutive chunks, each
worker maps `load_file` over its chunk, and `starmap` reassembles the
per-task results in argument order before they are flattened by
`reduce`. A raised exception in any task propagates. -/
def parCore (env : LoadEnv) (reg : List (String × Reader))
    (chunks : List (List (String × Option Dict))) :
    Except String (List DocNode) :=
  match exceptMap (fun c => exceptMap (fun fm => loadFile env reg fm.1 fm.2) c) chunks with
  | .error e => .error e
  | .ok rss => reduceConcat rss.flatten

/-- Embeds `_load_data` run sequentially (no worker count): merge the
registries, zip files with metadatas, run the sequential loop, then
apply `_exclude_metadata`. -/
def loadDataSeq (env : LoadEnv) (callerReg defaultReg : List (String × Reader))
    (files : List String) (metadatas : Option (List Dict)) :
    Except String (List DocNode) :=
  let fileReaders := mergeRegistries callerReg defaultReg
  (seqCore env fileReaders (zipMeta files metadatas)).map excludeMetadata

/-- Embeds `_load_data` run with a worker pool, the distribution of the zipped
argument list into per-worker chunks being a parameter. -/
def loadDataPar (env : LoadEnv) (callerReg defaultReg : List (String × Reader))
    (chunks : List (List (String × Option Dict))) :
    Except String (List DocNode) :=
  let fileReaders := mergeRegistries callerReg defaultReg
  (parCore env fileReaders chunks).map excludeMetadata

/-- Lines 258-262 of `_load_data`: whether the excess-workers warning is
emitted (`num_workers > multiprocessing.cpu_count()`). -/
def warnsExcessWorkers (cpuCount numWorkers : Nat) : Bool :=
  numWorkers > cpuCount

/-- Lines 258-262 of `_load_data`: the size actually passed to
`multiprocessing.get_context("spawn").Pool(...)`. The code logs the
warning but never reassigns `num_workers`, so the pool is created with
the requested count unchanged. -/
def poolSizeUsed (cpuCount numWorkers : Nat) : Nat :=
  if numWorkers > cpuCount then numWorkers else numWorkers

/-!
## Heap embedding of the registry merge (frame property)

To state that `_load_data` mutates neither `self._file_extractor` nor
`SimpleDirectoryReader.default_file_readers`, the two dicts live in an
explicit store and `dict.copy()` / `d[k] = v` act on store cells, so
that aliasing bugs would be observable.
-/

/-- A store of dicts; a dict reference is an index. -/
abbrev DictStore (α : Type) := List (List (String × α))

/-- Embeds `d.copy()`: allocate a fresh cell holding the same entries. -/
def storeCopy {α : Type} (h : DictStore α) (i : Nat) : DictStore α × Nat :=
  (h ++ [(h.getD i [])], h.length)

/-- Embeds `d[k] = v` performed on the store cell `i`. -/
def storeSetItem {α : Type} (h : DictStore α) (i : Nat) (k : String) (v : α) :
    DictStore α :=
  h.set i (dictSetItem (h.getD i []) k v)

/-- One iteration of the merge loop on the store: insert the default
entry into the `file_readers` cell when its key is missing there. -/
def storeInsertMissing {α : Type} (frIdx : Nat) (h : DictStore α)
    (kv : String × α) : DictStore α :=
  if dictHasKey (h.getD frIdx []) kv.1 then h
  else storeSetItem h frIdx kv.1 kv.2

/-- Lines 254-256 of `_load_data` over the explicit store: cell 0 holds
`self._file_extractor`, cell 1 holds `default_file_readers`;
`file_readers = self._file_extractor.copy()` allocates cell 2, and the
loop inserts each default under a missing key into that cell. Returns
the final store and the reference to `file_readers`. -/
def buildFileReadersStore {α : Type} (caller defaults : List (String × α)) :
    DictStore α × Nat :=
  let h0 : DictStore α := [caller, defaults]
  let (h1, frIdx) := storeCopy h0 0
  (defaults.foldl (storeInsertMissing frIdx) h1, frIdx)

/-!
## `_add_files`: directory discovery

Paths are modelled by their `Path.parts` (a list of segments); the glob
results for the main scan and for the exclude patterns, as well as the
`isdir` predicate, are inputs, since they come from the filesystem.
-/

/-- A filesystem path as its list of parts. -/
abbrev PathParts := List String

/-- Embeds `str(path)` for the prefix comparison of rejected directories:
POSIX join of the parts. -/
def pathStr (p : PathParts) : String :=
  ⟨List.intercalate ['/'] (p.map String.data)⟩

/-- String prefix test (`str.startswith`) on the character lists. -/
def strIsPrefixOf (pre s : String) : Bool :=
  pre.data.isPrefixOf s.data

/-- Embeds `fs._parent(path)`: drop the final segment. -/
def parentParts (p : PathParts) : PathParts :=
  p.dropLast

/-- Embeds `_is_hidden`: some segment starts with `.` and is neither `.` nor
`..`. -/
def isHidden (p : PathParts) : Bool :=
  p.any (fun part => strStartsWith part "." && part ≠ "." && part ≠ "..")

/-- Embeds `PurePath.suffix` of a single name: the final `.`-suffix of the last
component, empty when the last dot is the first character or the dot is
last. -/
def nameSuffix (name : String) : String :=
  let cs := name.toList
  let idxs := (List.range cs.length).filter (fun i => cs.getD i ' ' = '.')
  match idxs.getLast? with
  | none => ""
  | some i => if 0 < i ∧ i < cs.length - 1 then ⟨cs.drop i⟩ else ""

/-- Embeds `Path.suffix` on parts. -/
def pathSuffix (p : PathParts) : String :=
  match p.getLast? with
  | none => ""
  | some name => nameSuffix name

/-- The discovery configuration consumed by `_add_files`. -/
structure AddFilesCfg where
  excludeHidden : Bool
  requiredExts : Option (List String)
  numFilesLimit : Option Int

/-- The per-ref skip decision of the `_add_files` loop: a ref is kept
only when it is not a directory, not hidden (when hidden exclusion is
on), its suffix passes the allow-list, it is not an exact exclusion,
and its parent directory (the ref itself for directories) is not
string-prefixed by a rejected directory. -/
def keepRef (isDir : PathParts → Bool) (cfg : AddFilesCfg)
    (rejectedFiles rejectedDirs : List PathParts) (ref : PathParts) : Bool :=
  let isD := isDir ref
  let skipHidden := cfg.excludeHidden && isHidden ref
  let skipBadExts :=
    match cfg.requiredExts with
    | some exts => !(exts.contains (pathSuffix ref))
    | none => false
  let refParentDir := if isD then ref else parentParts ref
  let skipExcluded := rejectedFiles.contains ref ||
    rejectedDirs.any (fun rd => strIsPrefixOf (pathStr rd) (pathStr refParentDir))
  !(isD || skipHidden || skipBadExts || skipExcluded)

/-- Strict lexicographic comparison of character lists (code-point
order, as Python compares strings). -/
def charListLt : List Char → List Char → Bool
  | [], [] => false
  | [], _ :: _ => true
  | _ :: _, [] => false
  | a :: as, b :: bs => a < b || (a = b && charListLt as bs)

/-- Strict string comparison on the character lists. -/
def strLtB (a b : String) : Bool :=
  charListLt a.data b.data

/-- Non-strict lexicographic comparison of paths by their parts, the
order under which `sorted(all_files)` sorts candidate paths. -/
def partsLeB : List String → List String → Bool
  | [], _ => true
  | _ :: _, [] => false
  | a :: as, b :: bs => strLtB a b || (a = b && partsLeB as bs)

/-- The path order as a decidable proposition. -/
def pathLE (a b : PathParts) : Prop :=
  partsLeB a b = true

instance pathLE.decidableRel : DecidableRel pathLE :=
  fun a b => inferInstanceAs (Decidable (partsLeB a b = true))

/-- The sorted, duplicate-free candidate list before the emptiness check
and the cap: `sorted(all_files)` where `all_files` is the set of kept
refs. Sorting is lexicographic on parts. -/
def discoveredSorted (isDir : PathParts → Bool) (cfg : AddFilesCfg)
    (excludeMatches : List PathParts) (fileRefs : List PathParts) :
    List PathParts :=
  let rejectedDirs := excludeMatches.filter (fun f => isDir f)
  let rejectedFiles := excludeMatches.filter (fun f => !isDir f)
  ((fileRefs.filter (keepRef isDir cfg rejectedFiles rejectedDirs)).dedup).insertionSort
    pathLE

/-- Embeds `if self._num_files_limit is not None and self._num_files_limit > 0:
new_input_files = new_input_files[0:self._num_files_limit]`. -/
def applyLimit (lim : Option Int) (l : List PathParts) : List PathParts :=
  match lim with
  | some c => if c > 0 then l.take c.toNat else l
  | none => l

/-- Embeds `SimpleDirectoryReader._add_files`: glob results of the exclude
patterns are split into rejected directories and rejected files, the
main glob results are filtered by `keepRef`, deduplicated (a Python
set) and sorted; an empty result raises, and a configured positive
`num_files_limit` truncates to the first entries. -/
def addFiles (isDir : PathParts → Bool) (cfg : AddFilesCfg)
    (excludeMatches : List PathParts) (fileRefs : List PathParts) :
    Except String (List PathParts) :=
  let newInputFiles := discoveredSorted isDir cfg excludeMatches fileRefs
  if newInputFiles.isEmpty then
    .error "No files found"
  else
    .ok (applyLimit cfg.numFilesLimit newInputFiles)

/-!
## Theorems
-/

/-- The merged registry is the caller registry followed by some suffix
of default entries: caller entries keep their leading positions. -/
theorem mergeRegistries_eq_append {α : Type} (caller defaults : List (String × α)) :
    ∃ t, mergeRegistries caller defaults = caller ++ t := by
  unfold mergeRegistries
  induction defaults generalizing caller with
  | nil => exact ⟨[], (List.append_nil caller).symm⟩
  | cons kv ds ih =>
    simp only [List.foldl_cons]
    by_cases h : dictHasKey caller kv.1 = true
    · simpa [h] using ih caller
    · simp only [h]
      obtain ⟨t, ht⟩ := ih (caller ++ [(kv.1, kv.2)])
      exact ⟨[(kv.1, kv.2)] ++ t, by simp_all⟩

/-- C6: dispatch is first-match over insertion order and the caller
registry occupies the leading positions of the merged registry, so any
filename for which some caller pattern matches is dispatched to the
first matching caller entry, never to a default: registering a pattern
such as `*.md` in the caller registry shadows the identical default
pattern. -/
theorem findExtractor_caller_precedence {α : Type} (cwd : String)
    (caller defaults : List (String × α)) (filenameLower : String)
    (e : String × α)
    (hfind : findExtractor cwd caller filenameLower = some e) :
    findExtractor cwd (mergeRegistries caller defaults) filenameLower = some e := by
  obtain ⟨t, ht⟩ := mergeRegistries_eq_append caller defaults
  unfold findExtractor at hfind ⊢
  rw [ht, List.find?_append, hfind]
  rfl

/-- C6 witness: the caller overrides `*.md` (reader id 2), the defaults
also map `*.md` (reader id 1); dispatch for `a.md` over the merged
registry selects the caller's entry. -/
theorem findExtractor_caller_precedence_witness :
    findExtractor "/w" (mergeRegistries [("*.md", 2)] [("*.md", 1), ("*.pdf", 3)]) "a.md" =
      some ("*.md", 2) :=
  findExtractor_caller_precedence "/w" [("*.md", 2)] [("*.md", 1), ("*.pdf", 3)]
    "a.md" ("*.md", 2) (by decide)

/-- One store-level merge step acts only on the `file_readers` cell. -/
theorem storeInsertMissing_cell {α : Type} (c d fr : List (String × α))
    (kv : String × α) :
    storeInsertMissing 2 [c, d, fr] kv =
      [c, d, if dictHasKey fr kv.1 then fr else fr ++ [(kv.1, kv.2)]] := by
  cases hk : dictHasKey fr kv.1 with
  | true => simp [storeInsertMissing, List.getD, hk]
  | false =>
    have hk' : (fr.any fun e => decide (e.1 = kv.1)) = false := by
      simpa only [dictHasKey] using hk
    simp [storeInsertMissing, storeSetItem, dictSetItem, List.getD, hk, hk']

/-- The merge loop on the store only rewrites the `file_readers` cell
(index 2) and computes there exactly the `mergeRegistries` fold. -/
theorem storeFold_frame {α : Type} (c d : List (String × α)) :
    ∀ (ds : List (String × α)) (fr : List (String × α)),
      ds.foldl (storeInsertMissing 2) [c, d, fr] =
        [c, d, ds.foldl
          (fun acc kv => if dictHasKey acc kv.1 then acc else acc ++ [(kv.1, kv.2)]) fr] := by
  intro ds
  induction ds with
  | nil => intro fr; rfl
  | cons kv ds ih =>
    intro fr
    simp only [List.foldl_cons, storeInsertMissing_cell]
    by_cases h : dictHasKey fr kv.1
    · simpa [h] using ih fr
    · simpa [h] using ih (fr ++ [(kv.1, kv.2)])

/-- C9: the registry merge of `_load_data` leaves both the
caller-supplied `file_extractor` (store cell 0) and the class-level
`default_file_readers` table (store cell 1) unchanged, and the fresh
`file_readers` cell it allocates holds exactly the merged registry. -/
theorem loadData_preserves_input_registries {α : Type}
    (caller defaults : List (String × α)) :
    (buildFileReadersStore caller defaults).1.getD 0 [] = caller ∧
    (buildFileReadersStore caller defaults).1.getD 1 [] = defaults ∧
    (buildFileReadersStore caller defaults).1.getD
        (buildFileReadersStore caller defaults).2 [] =
      mergeRegistries caller defaults := by
  have hb : buildFileReadersStore caller defaults =
      (defaults.foldl (storeInsertMissing 2) [caller, defaults, caller], 2) := rfl
  rw [hb, storeFold_frame caller defaults defaults caller]
  exact ⟨rfl, rfl, rfl⟩

/-- C9 witness: a concrete caller registry and default table are both
unchanged by the merge, and the merged cell holds the merged registry. -/
theorem loadData_preserves_input_registries_witness :
    (buildFileReadersStore [("*.md", 2)] [("*.md", 1), ("*.pdf", 3)]).1.getD 0 [] =
        [("*.md", 2)] ∧
    (buildFileReadersStore [("*.md", 2)] [("*.md", 1), ("*.pdf", 3)]).1.getD 1 [] =
        [("*.md", 1), ("*.pdf", 3)] ∧
    (buildFileReadersStore [("*.md", 2)] [("*.md", 1), ("*.pdf", 3)]).1.getD
        (buildFileReadersStore [("*.md", 2)] [("*.md", 1), ("*.pdf", 3)]).2 [] =
      mergeRegistries [("*.md", 2)] [("*.md", 1), ("*.pdf", 3)] :=
  loadData_preserves_input_registries [("*.md", 2)] [("*.md", 1), ("*.pdf", 3)]

/-- C5 (code bug): when the requested worker count exceeds the CPU
count the warning fires, but the pool is created with the requested
count unchanged — `num_workers` is never reassigned, so the size
actually used is not reduced to the CPU count. -/
theorem poolSize_not_capped (cpuCount numWorkers : Nat)
    (h : cpuCount < numWorkers) :
    warnsExcessWorkers cpuCount numWorkers = true ∧
    poolSizeUsed cpuCount numWorkers = numWorkers ∧
    poolSizeUsed cpuCount numWorkers ≠ cpuCount := by
  refine ⟨by simpa [warnsExcessWorkers] using h, by simp [poolSizeUsed], ?_⟩
  simp only [poolSizeUsed, if_pos h]
  omega

/-- C5 witness: 5 requested workers on a 4-CPU host warn and still use
a pool of 5. -/
theorem poolSize_not_capped_witness :
    warnsExcessWorkers 4 5 = true ∧ poolSizeUsed 4 5 = 5 ∧ poolSizeUsed 4 5 ≠ 4 :=
  poolSize_not_capped 4 5 (by decide)

/-!
### Concrete fixtures for the per-file loading claims
-/

/-- A baseline environment: default posix working directory, both
config flags at their defaults (`rag_filename_as_id` off, fallback
reader on), no metadata generator, and a filesystem with no readable
files. -/
def baseEnv : LoadEnv where
  cwd := "/work"
  ragFilenameAsId := false
  useFallbackReader := true
  genf := none
  encoding := "utf-8"
  fsOpen := fun _ => .error "FileNotFoundError"
  decode := fun _ _ => none

/-- The bytes of the ASCII text `hello`. -/
def helloBytes : ByteStr := [104, 101, 108, 108, 111]

/-- Variant of `baseEnv` over a filesystem where every file holds `hello` and
decodes successfully. -/
def envHello : LoadEnv :=
  { baseEnv with
      fsOpen := fun _ => .ok helloBytes,
      decode := fun _ bs => if bs = helloBytes then some "hello" else none }

/-- Variant of `envHello` with the fallback reader disabled. -/
def envHelloNoFallback : LoadEnv :=
  { envHello with useFallbackReader := false }

/-- C8: for a file matched by no extractor pattern whose contents
decode under the configured encoding, `load_file` yields exactly one
node carrying the decoded text (and the caller metadata) when the
fallback reader is enabled, and yields the empty sequence when it is
disabled. -/
theorem loadFile_fallback_behavior (env : LoadEnv)
    (reg : List (String × Reader)) (f : String) (meta : Option Dict)
    (bs : ByteStr) (s : String)
    (hmatch : findExtractor env.cwd reg (strToLower f) = none)
    (hopen : env.fsOpen f = .ok bs)
    (hdecode : env.decode env.encoding bs = some s) :
    (env.useFallbackReader = true →
      loadFile env reg f meta =
        .ok [{ text := s, globalMetadata := meta.getD [], uid := "",
               excludedEmbedKeys := [], excludedLLMKeys := [] }]) ∧
    (env.useFallbackReader = false → loadFile env reg f meta = .ok []) := by
  constructor <;> intro hfb <;> simp [loadFile, hmatch, hopen, hdecode, hfb]

/-- C8 witness: an unmatched file containing `hello` yields one node
with text `hello` when fallback is on, and zero nodes when fallback is
off. -/
theorem loadFile_fallback_behavior_witness :
    loadFile envHello [] "a.xyz" none =
      .ok [{ text := "hello", globalMetadata := [], uid := "",
             excludedEmbedKeys := [], excludedLLMKeys := [] }] ∧
    loadFile envHelloNoFallback [] "a.xyz" none = .ok [] :=
  ⟨(loadFile_fallback_behavior envHello [] "a.xyz" none helloBytes "hello"
      rfl rfl rfl).1 rfl,
   (loadFile_fallback_behavior envHelloNoFallback [] "a.xyz" none helloBytes "hello"
      rfl rfl rfl).2 rfl⟩

/-- Variant of `envHello` with a metadata generator producing `{file_size: 10}`. -/
def envGenTen : LoadEnv :=
  { envHello with genf := some (fun _ => [("file_size", Value.int 10)]) }

/-- C1 counterexample: a file loaded through the fallback raw-text path
(no pattern matches) returns a node whose metadata record is the caller
metadata alone — here empty — although the three-tier merge of
generated `{file_size: 10}`, reader-attached `{}` and caller `{}` is
`{file_size: 10}`. The merge is not applied to every node `load_file`
returns. -/
theorem loadFile_metadata_merge_counterexample :
    loadFile envGenTen [] "a.xyz" none =
      .ok [{ text := "hello", globalMetadata := [], uid := "",
             excludedEmbedKeys := [], excludedLLMKeys := [] }] ∧
    mergeTiers (generatedMetadata envGenTen "a.xyz") [] [] =
      [("file_size", Value.int 10)] ∧
    ([] : Dict) ≠ [("file_size", Value.int 10)] :=
  ⟨rfl, rfl, by decide⟩

/-- C1 amended: for every file dispatched through a matching extractor
pattern, each returned node's metadata record equals the three-tier
merge in which caller metadata overrides reader-attached metadata,
which overrides generated metadata. -/
theorem loadFile_metadata_merge (env : LoadEnv) (reg : List (String × Reader))
    (f : String) (meta : Option Dict) (p : String) (r : Reader) (out : ReaderOut)
    (hid : env.ragFilenameAsId = false)
    (hfind : findExtractor env.cwd reg (strToLower f) = some (p, r))
    (hrun : r.run f = .ok out) :
    loadFile env reg f meta =
      .ok (out.toList.map (fun d =>
        { d with globalMetadata := mergeTiers (generatedMetadata env f) d.globalMetadata (meta.getD []) })) := by
  simp [loadFile, hfind, hrun, hid]

/-- The reader of the metadata-precedence example: it attaches
`{file_size: 20, lang: "en"}` to its single node. -/
def readerMetaExample : Reader :=
  ⟨fun _ => .ok (.many
    [{ text := "t",
       globalMetadata := [("file_size", Value.int 20), ("lang", Value.str "en")],
       uid := "u", excludedEmbedKeys := [], excludedLLMKeys := [] }])⟩

/-- C1 witness (the spec's precedence example): generated
`{file_size: 10}`, reader-attached `{file_size: 20, lang: "en"}`,
caller `{file_size: 30}` merge to `{file_size: 30, lang: "en"}` on the
returned node. -/
theorem loadFile_metadata_merge_witness :
    loadFile envGenTen [("*.md", readerMetaExample)] "a.md"
        (some [("file_size", Value.int 30)]) =
      .ok [{ text := "t",
             globalMetadata := [("file_size", Value.int 30), ("lang", Value.str "en")],
             uid := "u", excludedEmbedKeys := [], excludedLLMKeys := [] }] := by
  rw [loadFile_metadata_merge envGenTen [("*.md", readerMetaExample)] "a.md"
        (some [("file_size", Value.int 30)]) "*.md" readerMetaExample
        (.many [{ text := "t",
                  globalMetadata := [("file_size", Value.int 20), ("lang", Value.str "en")],
                  uid := "u", excludedEmbedKeys := [], excludedLLMKeys := [] }])
        rfl rfl rfl]
  rfl

/-- A reader that always raises. -/
def boomReader : Reader := ⟨fun _ => .error "boom"⟩

/-- C3 counterexample: with the `*.txt` reader raising, the sequential
`_load_data` loop over `[a.txt, b.txt]` does not return a shorter node
sequence — the whole batch aborts with the reader's exception. -/
theorem loadFile_failure_aborts_batch_counterexample :
    loadDataSeq baseEnv [("*.txt", boomReader)] [] ["a.txt", "b.txt"] none =
      .error "boom" := rfl

/-- C3 amended: only a decode failure in the fallback raw-text path is
isolated (the file yields zero nodes and the call returns normally); a
reader exception and an `open` exception both propagate out of
`load_file` and hence abort the batch. -/
theorem loadFile_failure_isolation (env : LoadEnv)
    (reg : List (String × Reader)) (f1 f2 f3 : String)
    (m1 m2 m3 : Option Dict) (p : String) (r : Reader) (e eOpen : String)
    (bs : ByteStr)
    (h1 : findExtractor env.cwd reg (strToLower f1) = some (p, r))
    (h2 : r.run f1 = Except.error e)
    (h3 : findExtractor env.cwd reg (strToLower f2) = none)
    (h4 : env.useFallbackReader = true)
    (h5 : env.fsOpen f2 = .ok bs)
    (h6 : env.decode env.encoding bs = none)
    (h7 : findExtractor env.cwd reg (strToLower f3) = none)
    (h8 : env.fsOpen f3 = Except.error eOpen) :
    loadFile env reg f1 m1 = .error e ∧
    loadFile env reg f2 m2 = .ok [] ∧
    loadFile env reg f3 m3 = .error eOpen := by
  refine ⟨?_, ?_, ?_⟩ <;>
    simp [loadFile, h1, h2, h3, h4, h5, h6, h7, h8]

/-- An environment where only `b.xyz` opens (to undecodable bytes) and
every other `open` raises. -/
def envOpenMixed : LoadEnv :=
  { baseEnv with
      fsOpen := fun f => if f = "b.xyz" then .ok [255] else .error "io",
      decode := fun _ _ => none }

/-- C3 witness: a raising reader for `a.txt` propagates; undecodable
`b.xyz` is dropped with a normal return; an `open` failure on `c.xyz`
propagates. -/
theorem loadFile_failure_isolation_witness :
    loadFile envOpenMixed [("*.txt", boomReader)] "a.txt" none = .error "boom" ∧
    loadFile envOpenMixed [("*.txt", boomReader)] "b.xyz" none = .ok [] ∧
    loadFile envOpenMixed [("*.txt", boomReader)] "c.xyz" none = .error "io" :=
  loadFile_failure_isolation envOpenMixed [("*.txt", boomReader)]
    "a.txt" "b.xyz" "c.xyz" none none none "*.txt" boomReader "boom" "io" [255]
    rfl rfl rfl rfl rfl rfl rfl rfl

/-- A reader returning one node whose text is the candidate path. -/
def textReader : Reader :=
  ⟨fun f => .ok (.many
    [{ text := f, globalMetadata := [], uid := "",
       excludedEmbedKeys := [], excludedLLMKeys := [] }])⟩

/-- C4 counterexample: with candidate files `[a.txt, b.txt]` and a
one-element metadata sequence, the batch output holds only the node of
`a.txt`; loading `b.txt` alone would produce a node, so `b.txt` was not
loaded at all rather than loaded without an override. -/
theorem metadatas_truncation_counterexample :
    loadDataSeq baseEnv [("*.txt", textReader)] [] ["a.txt", "b.txt"]
        (some [[("k", Value.int 1)]]) =
      .ok [{ text := "a.txt", globalMetadata := [("k", Value.int 1)], uid := "",
             excludedEmbedKeys := fileMetadataKeys,
             excludedLLMKeys := fileMetadataKeys }] ∧
    loadFile baseEnv (mergeRegistries [("*.txt", textReader)] []) "b.txt" none =
      .ok [{ text := "b.txt", globalMetadata := [], uid := "",
             excludedEmbedKeys := [], excludedLLMKeys := [] }] :=
  ⟨rfl, rfl⟩

/-- Embeds `zip` truncation: zipping a list cut to the second list's length
changes nothing. -/
theorem zip_take_length {α β : Type} :
    ∀ (l1 : List α) (l2 : List β), (l1.take l2.length).zip l2 = l1.zip l2
  | [], _ => by simp
  | _ :: _, [] => by simp
  | a :: l1, b :: l2 => by
    simpa using zip_take_length l1 l2

/-- C4 amended: a nonempty per-file metadata sequence shorter than the
file list truncates the batch — `_load_data` processes exactly the
first `len(metadatas)` files and the remaining files are not loaded at
all. -/
theorem loadData_truncates_to_metadata_length (env : LoadEnv)
    (cReg dReg : List (String × Reader)) (files : List String)
    (ms : List Dict) (hne : ms ≠ []) :
    loadDataSeq env cReg dReg files (some ms) =
      loadDataSeq env cReg dReg (files.take ms.length) (some ms) := by
  obtain ⟨m, ms', rfl⟩ := List.exists_cons_of_ne_nil hne
  unfold loadDataSeq
  have hz : zipMeta files (some (m :: ms')) =
      zipMeta (files.take (m :: ms').length) (some (m :: ms')) := by
    show files.zip ((m :: ms').map some) =
      (files.take (m :: ms').length).zip ((m :: ms').map some)
    rw [show (m :: ms').length = ((m :: ms').map some).length by simp,
      zip_take_length]
  rw [hz]

/-- C4 amended witness: with two files and one metadata record, the
batch equals the batch over the first file alone. -/
theorem loadData_truncates_to_metadata_length_witness :
    loadDataSeq baseEnv [("*.txt", textReader)] [] ["a.txt", "b.txt"]
        (some [[("k", Value.int 1)]]) =
      loadDataSeq baseEnv [("*.txt", textReader)] []
        (["a.txt", "b.txt"].take 1) (some [[("k", Value.int 1)]]) :=
  loadData_truncates_to_metadata_length baseEnv [("*.txt", textReader)] []
    ["a.txt", "b.txt"] [[("k", Value.int 1)]] (by simp)

/-!
### Sequential / worker-pool equivalence
-/

/-- The node list of a successful per-file load. -/
def loadOk (env : LoadEnv) (reg : List (String × Reader))
    (a : String × Option Dict) : List DocNode :=
  (loadFile env reg a.1 a.2).toOption.getD []

/-- When every per-file load succeeds, the sequential loop returns the
concatenation of the per-file results in argument order. -/
theorem seqCore_ok (env : LoadEnv) (reg : List (String × Reader)) :
    ∀ args : List (String × Option Dict),
      (∀ a ∈ args, ∃ ds, loadFile env reg a.1 a.2 = .ok ds) →
      seqCore env reg args = .ok (args.map (loadOk env reg)).flatten := by
  intro args
  induction args with
  | nil => intro _; rfl
  | cons a as ih =>
    intro h
    obtain ⟨ds, hds⟩ := h a (by simp)
    have hrest := ih (fun b hb => h b (by simp [hb]))
    simp [seqCore, hds, hrest, loadOk, Except.toOption]

/-- When every per-file load in a chunk succeeds, the worker's map
returns the per-file results in order. -/
theorem exceptMap_loadFile_ok (env : LoadEnv) (reg : List (String × Reader)) :
    ∀ c : List (String × Option Dict),
      (∀ a ∈ c, ∃ ds, loadFile env reg a.1 a.2 = .ok ds) →
      exceptMap (fun fm => loadFile env reg fm.1 fm.2) c = .ok (c.map (loadOk env reg)) := by
  intro c
  induction c with
  | nil => intro _; rfl
  | cons a as ih =>
    intro h
    obtain ⟨ds, hds⟩ := h a (by simp)
    have hrest := ih (fun b hb => h b (by simp [hb]))
    simp [exceptMap, hds, hrest, loadOk, Except.toOption]

/-- Chunk-level map under all-success. -/
theorem chunksMap_ok (env : LoadEnv) (reg : List (String × Reader)) :
    ∀ chunks : List (List (String × Option Dict)),
      (∀ a ∈ chunks.flatten, ∃ ds, loadFile env reg a.1 a.2 = .ok ds) →
      exceptMap (fun c => exceptMap (fun fm => loadFile env reg fm.1 fm.2) c) chunks =
        .ok (chunks.map (fun c => c.map (loadOk env reg))) := by
  intro chunks
  induction chunks with
  | nil => intro _; rfl
  | cons c cs ih =>
    intro h
    have hc := exceptMap_loadFile_ok env reg c (fun a ha => h a (by simp [ha]))
    have hrest := ih (fun a ha => h a (by simp [ha]))
    simp [exceptMap, hc, hrest]

/-- Folding `++` from an initial segment is flattening. -/
theorem foldl_append_eq_flatten {α : Type} :
    ∀ (rs : List (List α)) (r : List α),
      rs.foldl (fun x y => x ++ y) r = r ++ rs.flatten := by
  intro rs
  induction rs with
  | nil => intro r; simp
  | cons s rs ih => intro r; simp [ih, List.append_assoc]

/-- Running `reduce` over a nonempty result list flattens it. -/
theorem reduceConcat_ok (rs : List (List DocNode)) (h : rs ≠ []) :
    reduceConcat rs = .ok rs.flatten := by
  cases rs with
  | nil => exact absurd rfl h
  | cons r rs' => simp [reduceConcat, foldl_append_eq_flatten]

/-- C2: for a fixed file list, registry, encoding and metadata
configuration in which every per-file load succeeds, the worker-pool
branch of `_load_data` — for any distribution of the zipped argument
list into worker chunks, hence for any worker count >= 1 — returns
exactly what the sequential branch returns, and both equal the
concatenation of the per-file node lists in input file-list order. -/
theorem loadData_par_eq_seq (env : LoadEnv)
    (cReg dReg : List (String × Reader)) (files : List String)
    (metadatas : Option (List Dict))
    (chunks : List (List (String × Option Dict)))
    (hch : chunks.flatten = zipMeta files metadatas)
    (hne : files ≠ [])
    (hok : ∀ a ∈ zipMeta files metadatas,
      ∃ ds, loadFile env (mergeRegistries cReg dReg) a.1 a.2 = .ok ds) :
    loadDataPar env cReg dReg chunks = loadDataSeq env cReg dReg files metadatas ∧
    loadDataSeq env cReg dReg files metadatas =
      .ok (excludeMetadata
        ((zipMeta files metadatas).map (loadOk env (mergeRegistries cReg dReg))).flatten) := by
  have hargs_ne : zipMeta files metadatas ≠ [] := by
    obtain ⟨f, fs, rfl⟩ := List.exists_cons_of_ne_nil hne
    cases metadatas with
    | none => simp [zipMeta]
    | some ms =>
      cases ms with
      | nil => simp [zipMeta]
      | cons m ms' => simp [zipMeta]
  have hseq := seqCore_ok env (mergeRegistries cReg dReg) (zipMeta files metadatas) hok
  have hpar : parCore env (mergeRegistries cReg dReg) chunks =
      .ok ((zipMeta files metadatas).map (loadOk env (mergeRegistries cReg dReg))).flatten := by
    have hm := chunksMap_ok env (mergeRegistries cReg dReg) chunks
      (fun a ha => hok a (hch ▸ ha))
    have hflat : (chunks.map (fun c => c.map (loadOk env (mergeRegistries cReg dReg)))).flatten =
        (zipMeta files metadatas).map (loadOk env (mergeRegistries cReg dReg)) := by
      rw [← List.map_flatten, hch]
    have hred : parCore env (mergeRegistries cReg dReg) chunks =
        reduceConcat ((chunks.map (fun c => c.map (loadOk env (mergeRegistries cReg dReg)))).flatten) := by
      unfold parCore
      rw [hm]
    rw [hred, hflat]
    apply reduceConcat_ok
    intro hnil
    exact hargs_ne (List.map_eq_nil_iff.mp hnil)
  constructor
  · show (parCore env (mergeRegistries cReg dReg) chunks).map excludeMetadata =
      (seqCore env (mergeRegistries cReg dReg) (zipMeta files metadatas)).map excludeMetadata
    rw [hpar, hseq]
  · show (seqCore env (mergeRegistries cReg dReg) (zipMeta files metadatas)).map excludeMetadata = _
    rw [hseq]
    rfl

/-- C2 witness: two files, no metadatas, one file per worker chunk —
the pool result equals the sequential result, which is the per-file
concatenation in file order. -/
theorem loadData_par_eq_seq_witness :
    loadDataPar baseEnv [("*.txt", textReader)] []
        [[("a.txt", none)], [("b.txt", none)]] =
      loadDataSeq baseEnv [("*.txt", textReader)] [] ["a.txt", "b.txt"] none ∧
    loadDataSeq baseEnv [("*.txt", textReader)] [] ["a.txt", "b.txt"] none =
      .ok (excludeMetadata
        ((zipMeta ["a.txt", "b.txt"] none).map
          (loadOk baseEnv (mergeRegistries [("*.txt", textReader)] []))).flatten) :=
  loadData_par_eq_seq baseEnv [("*.txt", textReader)] [] ["a.txt", "b.txt"] none
    [[("a.txt", none)], [("b.txt", none)]] rfl (by simp)
    (by
      intro a ha
      simp [zipMeta] at ha
      rcases ha with rfl | rfl
      · exact ⟨_, rfl⟩
      · exact ⟨_, rfl⟩)

/-!
### Discovery: sortedness, dedup, no directories, cap, hidden paths
-/

/-- Equal character data gives equal strings. -/
theorem strData_inj (a b : String) (h : a.data = b.data) : a = b := by
  cases a
  cases b
  exact congrArg String.mk h

/-- Trichotomy for the character-list comparison. -/
theorem charListLt_trichotomy :
    ∀ a b : List Char, a = b ∨ charListLt a b = true ∨ charListLt b a = true := by
  intro a
  induction a with
  | nil =>
    intro b
    cases b with
    | nil => exact Or.inl rfl
    | cons y ys => exact Or.inr (Or.inl rfl)
  | cons x xs ih =>
    intro b
    cases b with
    | nil => exact Or.inr (Or.inr rfl)
    | cons y ys =>
      rcases lt_trichotomy x y with hxy | hxy | hxy
      · exact Or.inr (Or.inl (by simp [charListLt, hxy]))
      · subst hxy
        rcases ih ys with h | h | h
        · exact Or.inl (by rw [h])
        · exact Or.inr (Or.inl (by simp [charListLt, h]))
        · exact Or.inr (Or.inr (by simp [charListLt, h]))
      · exact Or.inr (Or.inr (by simp [charListLt, hxy]))

/-- Transitivity of the character-list comparison. -/
theorem charListLt_trans :
    ∀ a b c : List Char, charListLt a b = true → charListLt b c = true →
      charListLt a c = true := by
  intro a
  induction a with
  | nil =>
    intro b c hab hbc
    cases b with
    | nil => exact absurd hab (by simp [charListLt])
    | cons y ys =>
      cases c with
      | nil => exact absurd hbc (by simp [charListLt])
      | cons z zs => simp [charListLt]
  | cons x xs ih =>
    intro b c hab hbc
    cases b with
    | nil => exact absurd hab (by simp [charListLt])
    | cons y ys =>
      cases c with
      | nil => exact absurd hbc (by simp [charListLt])
      | cons z zs =>
        simp only [charListLt, Bool.or_eq_true, Bool.and_eq_true,
          decide_eq_true_eq] at hab hbc ⊢
        rcases hab with hab | ⟨hab, hab'⟩ <;> rcases hbc with hbc | ⟨hbc, hbc'⟩
        · exact Or.inl (lt_trans hab hbc)
        · exact Or.inl (hbc ▸ hab)
        · exact Or.inl (hab ▸ hbc)
        · exact Or.inr ⟨hab.trans hbc, ih ys zs hab' hbc'⟩

/-- Totality of the path order. -/
theorem partsLeB_total :
    ∀ a b : List String, partsLeB a b = true ∨ partsLeB b a = true := by
  intro a
  induction a with
  | nil => intro b; exact Or.inl rfl
  | cons s as ih =>
    intro b
    cases b with
    | nil => exact Or.inr rfl
    | cons t bs =>
      rcases charListLt_trichotomy s.data t.data with h | h | h
      · have hst : s = t := strData_inj s t h
        subst hst
        rcases ih bs with h' | h'
        · exact Or.inl (by simp [partsLeB, h'])
        · exact Or.inr (by simp [partsLeB, h'])
      · exact Or.inl (by simp [partsLeB, strLtB, h])
      · exact Or.inr (by simp [partsLeB, strLtB, h])

/-- Transitivity of the path order. -/
theorem partsLeB_trans :
    ∀ a b c : List String, partsLeB a b = true → partsLeB b c = true →
      partsLeB a c = true := by
  intro a
  induction a with
  | nil => intro b c _ _; rfl
  | cons s as ih =>
    intro b c hab hbc
    cases b with
    | nil => exact absurd hab (by simp [partsLeB])
    | cons t bs =>
      cases c with
      | nil => exact absurd hbc (by simp [partsLeB])
      | cons u cs =>
        simp only [partsLeB, strLtB, Bool.or_eq_true, Bool.and_eq_true,
          decide_eq_true_eq] at hab hbc ⊢
        rcases hab with hab | ⟨hab, hab'⟩ <;> rcases hbc with hbc | ⟨hbc, hbc'⟩
        · exact Or.inl (charListLt_trans _ _ _ hab hbc)
        · exact Or.inl (hbc ▸ hab)
        · exact Or.inl (hab ▸ hbc)
        · exact Or.inr ⟨hab.trans hbc, ih bs cs hab' hbc'⟩

instance pathLE.isTotal : IsTotal PathParts pathLE :=
  ⟨fun a b => partsLeB_total a b⟩

instance pathLE.isTrans : IsTrans PathParts pathLE :=
  ⟨fun a b c hab hbc => partsLeB_trans a b c hab hbc⟩

/-- Everything `discoveredSorted` returns was kept by the filter. -/
theorem mem_discoveredSorted_keep (isDir : PathParts → Bool) (cfg : AddFilesCfg)
    (em fileRefs : List PathParts) (p : PathParts)
    (hp : p ∈ discoveredSorted isDir cfg em fileRefs) :
    keepRef isDir cfg (em.filter (fun f => !isDir f)) (em.filter (fun f => isDir f)) p = true := by
  unfold discoveredSorted at hp
  have hp' := (List.perm_insertionSort pathLE _).subset hp
  have hp'' := (List.dedup_sublist _).subset hp'
  exact (List.mem_filter.mp hp'').2

/-- C7: discovery output is sorted and duplicate-free and contains no
directories; the empty-result error fires exactly when the filtered
candidate set is empty; and a configured positive cap returns exactly
the first cap-many entries of the sorted candidate list. -/
theorem addFiles_discovery_spec (isDir : PathParts → Bool) (cfg : AddFilesCfg)
    (em fileRefs : List PathParts) :
    (addFiles isDir cfg em fileRefs = .error "No files found" ↔
      discoveredSorted isDir cfg em fileRefs = []) ∧
    (∀ l, addFiles isDir cfg em fileRefs = .ok l →
      l.Sorted pathLE ∧ l.Nodup ∧ (∀ p ∈ l, isDir p = false) ∧
      ∀ c : Int, cfg.numFilesLimit = some c → 0 < c →
        l = (discoveredSorted isDir cfg em fileRefs).take c.toNat) := by
  have hsorted : (discoveredSorted isDir cfg em fileRefs).Sorted pathLE := by
    unfold discoveredSorted
    exact List.sorted_insertionSort pathLE _
  have hnodup : (discoveredSorted isDir cfg em fileRefs).Nodup := by
    unfold discoveredSorted
    exact ((List.perm_insertionSort pathLE _).nodup_iff).mpr (List.nodup_dedup _)
  have hnodir : ∀ p ∈ discoveredSorted isDir cfg em fileRefs, isDir p = false := by
    intro p hp
    have hk := mem_discoveredSorted_keep isDir cfg em fileRefs p hp
    simp only [keepRef, Bool.not_eq_true', Bool.or_eq_false_iff] at hk
    exact hk.1.1.1
  have hsub : List.Sublist
      (applyLimit cfg.numFilesLimit (discoveredSorted isDir cfg em fileRefs))
      (discoveredSorted isDir cfg em fileRefs) := by
    unfold applyLimit
    cases cfg.numFilesLimit with
    | none => exact List.Sublist.refl _
    | some c =>
      by_cases hc : c > 0
      · simp only [hc, if_true]
        exact List.take_sublist _ _
      · simp only [hc, if_false]
        exact List.Sublist.refl _
  constructor
  · unfold addFiles
    by_cases hD : (discoveredSorted isDir cfg em fileRefs).isEmpty
    · simp [hD, List.isEmpty_iff.mp hD]
    · have hne : discoveredSorted isDir cfg em fileRefs ≠ [] := by
        simpa [List.isEmpty_iff] using hD
      simp [hD, hne]
  · intro l hl
    have hempty : ¬ (discoveredSorted isDir cfg em fileRefs).isEmpty := by
      intro hD
      unfold addFiles at hl
      simp [hD] at hl
    unfold addFiles at hl
    rw [if_neg hempty] at hl
    have hleq : l = applyLimit cfg.numFilesLimit (discoveredSorted isDir cfg em fileRefs) :=
      (Except.ok.inj hl).symm
    subst hleq
    refine ⟨(List.Pairwise.sublist hsub hsorted : _), hnodup.sublist hsub, ?_, ?_⟩
    · intro p hp
      exact hnodir p (hsub.subset hp)
    · intro c hL hc
      simp [applyLimit, hL, hc]

/-- C10: with hidden-file exclusion enabled, if the input directory
itself has a dot-segment (other than `.`/`..`) among its parts, then —
since every glob result extends the directory's parts and `_is_hidden`
tests every segment of the full path — every candidate is skipped and
`_add_files` raises the empty-result error. -/
theorem addFiles_hidden_input_dir (isDir : PathParts → Bool) (cfg : AddFilesCfg)
    (em fileRefs : List PathParts) (dirParts : PathParts) (part : String)
    (hh : cfg.excludeHidden = true)
    (hmem : part ∈ dirParts)
    (hdot : strStartsWith part "." = true)
    (hne1 : part ≠ ".") (hne2 : part ≠ "..")
    (hpre : ∀ r ∈ fileRefs, dirParts <+: r) :
    addFiles isDir cfg em fileRefs = .error "No files found" := by
  have hkeep : ∀ r ∈ fileRefs,
      keepRef isDir cfg (em.filter (fun f => !isDir f)) (em.filter (fun f => isDir f)) r = false := by
    intro r hr
    have hmemr : part ∈ r := (hpre r hr).subset hmem
    have hhid : isHidden r = true := by
      unfold isHidden
      rw [List.any_eq_true]
      exact ⟨part, hmemr, by simp [hdot, hne1, hne2]⟩
    simp [keepRef, hh, hhid]
  have hfil : fileRefs.filter
      (keepRef isDir cfg (em.filter (fun f => !isDir f)) (em.filter (fun f => isDir f))) = [] := by
    rw [List.filter_eq_nil_iff]
    intro r hr
    simp [hkeep r hr]
  have hD : discoveredSorted isDir cfg em fileRefs = [] := by
    simp only [discoveredSorted]
    rw [hfil]
    rfl
  unfold addFiles
  simp [hD]

/-- C10 witness: an input directory under `.hidden` with one discovered
file yields the empty-result error. -/
theorem addFiles_hidden_input_dir_witness :
    addFiles (fun _ => false) ⟨true, none, none⟩ [] [[".hidden", "data", "a.txt"]] =
      .error "No files found" :=
  addFiles_hidden_input_dir (fun _ => false) ⟨true, none, none⟩ []
    [[".hidden", "data", "a.txt"]] [".hidden", "data"] ".hidden"
    rfl (by simp) (by decide) (by decide) (by decide)
    (by
      intro r hr
      simp only [List.mem_singleton] at hr
      subst hr
      exact ⟨["a.txt"], rfl⟩)

/-- The concrete discovery instance of the cap example: five regular
files, one directory, cap 2. -/
def wRefs : List PathParts :=
  [["b.txt"], ["a.txt"], ["dir"], ["c.txt"], ["e.txt"], ["d.txt"]]

/-- The `isdir` predicate of the concrete discovery instance. -/
def wIsDir (p : PathParts) : Bool :=
  p = ["dir"]

/-- C7 witness: on a universe of five files and a directory with
`num_files_limit = 2`, discovery returns exactly the first two files in
sorted order, and they are sorted, duplicate-free and not directories. -/
theorem addFiles_discovery_spec_witness :
    addFiles wIsDir ⟨true, none, some 2⟩ [] wRefs = .ok [["a.txt"], ["b.txt"]] ∧
    List.Sorted pathLE [["a.txt"], ["b.txt"]] ∧
    ([["a.txt"], ["b.txt"]] : List PathParts).Nodup ∧
    (∀ p ∈ ([["a.txt"], ["b.txt"]] : List PathParts), wIsDir p = false) ∧
    [["a.txt"], ["b.txt"]] =
      (discoveredSorted wIsDir ⟨true, none, some 2⟩ [] wRefs).take 2 := by
  have h := (addFiles_discovery_spec wIsDir ⟨true, none, some 2⟩ [] wRefs).2
    [["a.txt"], ["b.txt"]] rfl
  exact ⟨rfl, h.1, h.2.1, h.2.2.1, by simpa using h.2.2.2 2 rfl (by decide)⟩

end DataReader
